import Mathlib

/-!
# Thea — verification of the ingest/queue/export core

A shallow embedding, in Lean 4, of the parts of the Thea media-processing
server that the claims of the specification are about.  Pure functions of the Go
source are translated into Lean functions; the Go mutation of queue items is
rendered as explicit state passing over a queue represented as `List Item`.
Go `int`/`time.Duration` arithmetic is 64-bit and is modelled on `Int` with
an explicit wrap where overflow matters.  Fallible Go operations returning
`error` are modelled with `Except`.

Where a definition models a function of the repository that is referenced by
the sources here but whose own source file is not available, its doc comment
starts with `Modelled from the spec:` and it follows the wording of the
specification; every other definition is translated directly from the Go source.
-/

namespace Thea

/-- Item statuses of the queue package (`queue.ItemStatus`): the fine-grained
runtime state of a queue item. -/
inductive ItemStatus
  | Pending
  | Processing
  | Completed
  | NeedsResolving
  | NeedsAttention
  | Cancelling
  | Cancelled
  | Paused
  deriving DecidableEq, Repr

/-- Pipeline stages of an item (`queue.ItemStage` / `PipelineStage`):
Import → Title → Omdb → Database → Finish. -/
inductive ItemStage
  | Import
  | Title
  | Omdb
  | Database
  | Finish
  deriving DecidableEq, Repr

/-- Status of one ffmpeg commander instance.  Modelled from the spec: the
ffmpeg package is not under src/; the spec gives the transcode-task statuses
{Queued, Running, Suspended, Complete, Failed, Cancelled}.  `WORKING` is the
running state, `SUSPENDED` the paused state and `COMPLETE` the success state
named by the source (`ffmpeg.SUSPENDED`, `ffmpeg.COMPLETE`). -/
inductive InstanceStatus
  | QUEUED
  | WORKING
  | SUSPENDED
  | COMPLETE
  | FAILED
  | CANCELLED
  deriving DecidableEq, Repr

/-- Parsed title information of an item (`queue.TitleInfo`): the title, an
`Episodic` flag, season/episode numbers (−1 when absent) and the release
year for movies. -/
structure TitleInfo where
  title : String
  episodic : Bool
  season : Int
  episode : Int
  year : Int
  deriving DecidableEq, Repr

/-- One queue item (`queue.Item`), restricted to the fields the claims are
about.  `mtime` is the modification time, in seconds, reported by `os.Stat`
for `path` (`none` when the stat fails). -/
structure Item where
  itemID : Int
  path : String
  stage : ItemStage
  status : ItemStatus
  titleInfo : TitleInfo
  mtime : Option Int
  deriving DecidableEq, Repr

/-! ## C1 — the title parser

The TitleTask of the spec parses a filename into a `TitleInfo` by stripping the
extension and matching the Go regular expression

  `([\w.]+)(([SsEe]\d+){2})|(20|19)\d{2}`

with the Go leftmost-first (preferred-alternative) match semantics.  The
definitions below implement exactly this rule, specialised to that one
pattern: at each start position, from left to right, the episodic
alternative is attempted first (a non-empty greedy run of `[\w.]`
characters followed immediately by two `[SsEe]\d+` groups), then the year
alternative `(20|19)\d{2}`. -/

/-- Go regexp `\w` (RE2, ASCII): letters, digits and underscore. -/
def isWordChar (c : Char) : Bool :=
  c.isAlpha || c.isDigit || c == '_'

/-- A character matched by the regex class `[\w.]`. -/
def isWordDot (c : Char) : Bool :=
  isWordChar c || c == '.'

/-- Numeric value of a digit run. -/
def digitsToNat (l : List Char) : Nat :=
  l.foldl (fun acc c => acc * 10 + (c.toNat - '0'.toNat)) 0

/-- Parse one `[SsEe]\d+` group (greedy digits) at the head of the input,
returning its numeric value and the remaining input. -/
def parseSE : List Char → Option (Nat × List Char)
  | [] => none
  | c :: rest =>
    if c == 'S' || c == 's' || c == 'E' || c == 'e' then
      let digits := rest.takeWhile Char.isDigit
      if digits.isEmpty then none
      else some (digitsToNat digits, rest.drop digits.length)
    else none

/-- Parse `([SsEe]\d+){2}` at the head of the input: the two group values
(first group, second group). -/
def parsePair (l : List Char) : Option (Nat × Nat) :=
  match parseSE l with
  | none => none
  | some (a, l1) =>
    match parseSE l1 with
    | none => none
    | some (b, _) => some (a, b)

/-- Greedy backtracking search for the episodic alternative
`([\w.]+)(([SsEe]\d+){2})` anchored at the current position: try the longest
candidate length `k` of the `[\w.]+` capture first and shrink.  Returns the
capture length and the two group values. -/
def tryEpisodicAux (s : List Char) : Nat → Option (Nat × Nat × Nat)
  | 0 => none
  | k + 1 =>
    match parsePair (s.drop (k + 1)) with
    | some (a, b) => some (k + 1, a, b)
    | none => tryEpisodicAux s k

/-- The episodic alternative anchored at the current position. -/
def tryEpisodic (s : List Char) : Option (Nat × Nat × Nat) :=
  tryEpisodicAux s (s.takeWhile isWordDot).length

/-- The year alternative `(20|19)\d{2}` anchored at the current position. -/
def tryYear : List Char → Option Nat
  | a :: b :: c :: d :: _ =>
    if ((a == '2' && b == '0') || (a == '1' && b == '9'))
        && c.isDigit && d.isDigit then
      some (digitsToNat [a, b, c, d])
    else none
  | _ => none

/-- Result of the leftmost-first scan: either an episodic hit (the `[\w.]+`
capture and the two group values) or a year hit (the text before the match
and the year). -/
inductive ScanHit
  | episodic (capture : List Char) (season episode : Nat)
  | year (before : List Char) (value : Nat)
  deriving DecidableEq, Repr

/-- Leftmost-first scan of the whole string: positions left to right, and at
each position the episodic alternative is preferred over the year
alternative (Go regexp alternation preference).  `pre` accumulates the
already-scanned prefix, reversed. -/
def scanTitleAux (pre : List Char) : List Char → Option ScanHit
  | [] => none
  | c :: rest =>
    match tryEpisodic (c :: rest) with
    | some (k, a, b) => some (.episodic ((c :: rest).take k) a b)
    | none =>
      match tryYear (c :: rest) with
      | some y => some (.year pre.reverse y)
      | none => scanTitleAux (c :: pre) rest

/-- Strip the filename extension: drop the final `.` and everything after
it (the name is unchanged when it contains no dot). -/
def stripExtension (l : List Char) : List Char :=
  if l.contains '.' then
    ((l.reverse.dropWhile (fun c => c != '.')).drop 1).reverse
  else l

/-- Trim the separator dots that the greedy `[\w.]+` capture keeps at the
end of the title (spec scenario S2: `Breaking.Bad.S02E07` parses to the
title `Breaking.Bad`, not `Breaking.Bad.`). -/
def trimTrailingDots (l : List Char) : List Char :=
  (l.reverse.dropWhile (fun c => c == '.')).reverse

/-- The per-item trouble raised when the title cannot be parsed. -/
inductive TitleTrouble
  | UnparsableTitle
  deriving DecidableEq, Repr

/-- Modelled from the spec: the TitleTask of the queue package is not under
src/ (src has only the early `Processor.FormatTitle` prototypes, which match
the same regex but return the title unchanged).  Per the spec: strip the
extension, match `([\w.]+)(([SsEe]\d+){2})|(20|19)\d{2}`; two `[SsEe]\d+`
groups present ⇒ `Episodic` with the season (first group) and episode
(second group) numbers; else a movie tagged with the four-digit year; no
match ⇒ `Trouble=UnparsableTitle`. -/
def formatTitle (name : String) : Except TitleTrouble TitleInfo :=
  match scanTitleAux [] (stripExtension name.toList) with
  | some (.episodic capture s e) =>
    .ok ⟨⟨trimTrailingDots capture⟩, true, (s : Int), (e : Int), -1⟩
  | some (.year before y) =>
    .ok ⟨⟨trimTrailingDots before⟩, false, -1, -1, (y : Int)⟩
  | none => .error .UnparsableTitle

/-! ## C2 — `queueService.CancelItem`

The status update performed by `CancelItem` is a Go `switch` over
`item.Status`.  Go `switch` cases do **not** fall through: a case with an
empty body does nothing and leaves the `switch`.  The translation below
reproduces the source case by case, empty bodies included:

```
switch item.Status {
case queue.Cancelled:
case queue.Cancelling:
        return ... "Item is already cancelled"
case queue.Pending:
case queue.NeedsResolving:
        item.SetStatus(queue.Cancelled)
case queue.Completed:
        return ... "Item has already been completed"
case queue.NeedsAttention:
case queue.Processing:
        item.SetStatus(queue.Cancelling)
}
```

so `Cancelled`, `Pending` and `NeedsAttention` (and the absent `Paused`
case) leave the status unchanged and return no error. -/

/-- The status transition of `queueService.CancelItem`: the new status of
the item, or the error the call returns. -/
def cancelItemStatus : ItemStatus → Except String ItemStatus
  | .Cancelled => .ok .Cancelled
  | .Cancelling => .error "Item is already cancelled"
  | .Pending => .ok .Pending
  | .NeedsResolving => .ok .Cancelled
  | .Completed => .error "Item has already been completed"
  | .NeedsAttention => .ok .NeedsAttention
  | .Processing => .ok .Cancelling
  | .Paused => .ok .Paused

/-- `queueService.CancelItem` on a found item together with its ffmpeg
instances: on the error paths the call returns before reaching the
instance-cancellation loop; otherwise every instance is signalled to
cancel. -/
def cancelItem (item : Item) (insts : List InstanceStatus) :
    Except String (Item × List InstanceStatus) :=
  match cancelItemStatus item.status with
  | .error e => .error e
  | .ok s => .ok ({ item with status := s }, insts.map fun _ => .CANCELLED)

/-! ## C3 — `queueService.ResumeItem` -/

/-- Modelled from the spec: `CommanderTask.Resume` of the ffmpeg package is
not under src/; per the spec `Resume` transitions `Suspended → Running`. -/
def resumeInstance : InstanceStatus → InstanceStatus
  | .SUSPENDED => .WORKING
  | s => s

/-- `queueService.ResumeItem` on a found item together with its ffmpeg
instances.  The source errors when the item is not `Paused`, unpauses the
item, and then resumes the instances only when **every** instance is
`SUSPENDED` — if any instance is in another state it returns early with no
instance resumed.  (`Item.SetPaused(false)` is not under src/; modelled from
the status machine of the spec `Processing → Paused → Processing`.) -/
def resumeItem (item : Item) (insts : List InstanceStatus) :
    Except String (Item × List InstanceStatus) :=
  if item.status != .Paused then
    .error "Item is not paused"
  else
    let item' := { item with status := .Processing }
    if insts.all (fun s => s == .SUSPENDED) then
      .ok (item', insts.map resumeInstance)
    else
      .ok (item', insts)

/-! ## C5 — the modtime stability gate

Both `theaImpl.synchroniseQueue` and `Processor.handleItemModtimes` advance
an `Import`-stage item to the next stage when
`time.Since(info.ModTime()) > time.Minute*2` — a strict inequality at 120
seconds.  Items at another stage, or whose `os.Stat` fails, are skipped. -/

/-- Modelled from the spec: `AdvanceStage` of the queue package is not under
src/; per the spec it sets the stage to the next stage (after `Import` comes
`Title`) and the status back to `Pending`. -/
def advanceFromImport (item : Item) : Item :=
  { item with stage := .Title, status := .Pending }

/-- One item under the modtime check of the ingest tick (`checkModtime` in
`Processor.handleItemModtimes`, and the `ForEach` body of
`theaImpl.synchroniseQueue`): `now` is the current clock reading in
seconds. -/
def modtimeStep (now : Int) (item : Item) : Item :=
  if item.stage != .Import then item
  else
    match item.mtime with
    | none => item
    | some t => if now - t > 120 then advanceFromImport item else item

/-- The modtime pass of one ingest tick over the whole queue. -/
def modtimeTick (now : Int) (q : List Item) : List Item :=
  q.map (modtimeStep now)

/-! ## C6 — ingest-tick synchronisation (`theaImpl.synchroniseQueue`)

The tick reloads the exclusion cache, walks the import directory
(`discoverItems`), pushes every discovered file, filters out the items whose
path was not discovered — calling `CancelItem` on each before dropping it,
and discarding the error of `CancelItem` — and finally runs the modtime pass. -/

/-- Modelled from the spec: `Push` of the queue package is not under src/;
per the spec it appends the item when its `Path` is not already present and
fails (leaving the queue unchanged) with `DuplicatePath` otherwise. -/
def pushItem (q : List Item) (item : Item) : List Item :=
  if q.any (fun x => x.path == item.path) then q else q ++ [item]

/-- The effect `CancelItem` has on an item that is about to be filtered out:
its status is updated per `cancelItemStatus`; the error returns of
`CancelItem` are discarded by the `Filter` callback, leaving the status
unchanged.  The boolean records whether the instance-cancellation loop of
`CancelItem` was reached. -/
def cancelRemoved (item : Item) : Item × Bool :=
  match cancelItemStatus item.status with
  | .ok s => ({ item with status := s }, true)
  | .error _ => (item, false)

/-- One ingest-tick synchronisation: push the discovered items, filter the
queue down to the items whose path is still present (cancelling the
removed ones), then run the modtime pass.  Returns the resulting queue
together with the trace of removed items (after their `CancelItem` call,
paired with whether their ffmpeg instances were cancelled). -/
def synchroniseQueue (now : Int) (discovered : List Item) (q : List Item) :
    List Item × List (Item × Bool) :=
  let pushed := (discovered.foldl pushItem q)
  let paths := discovered.map Item.path
  let kept := pushed.filter (fun it => paths.contains it.path)
  let removed := (pushed.filter (fun it => !paths.contains it.path)).map cancelRemoved
  (modtimeTick now kept, removed)

/-! ## C4 — `queueService.PromoteItem` -/

/-- Helper of `findById`: linear scan carrying the current index. -/
def findByIdAux (id : Int) : List Item → Int → Option Item × Int
  | [], _ => (none, -1)
  | it :: rest, i =>
    if it.itemID == id then (some it, i) else findByIdAux id rest (i + 1)

/-- `queue.FindById`: the first item with the given ID and its index, or
`(none, -1)` on a miss. -/
def findById (q : List Item) (id : Int) : Option Item × Int :=
  findByIdAux id q 0

/-- Modelled from the spec: `Reorder` of the queue package is not under
src/; per the spec `newOrder` must be a permutation of the current item IDs
— failing with `InvalidPermutation` otherwise — and the queue is atomically
reordered to match it. -/
def reorder (q : List Item) (newOrder : List Int) : Except String (List Item) :=
  if (q.map Item.itemID).isPerm newOrder then
    .ok (newOrder.filterMap (fun id => q.find? (fun it => it.itemID == id)))
  else
    .error "InvalidPermutation"

/-- `queueService.PromoteItem`: find the item; error when absent; succeed
with the queue unchanged when it is already at index 0; otherwise build the
ID list with the ID of the item spliced to the front (the source distinguishes
the last-index case from the middle case) and `Reorder` to it. -/
def promoteItem (q : List Item) (id : Int) : Except String (List Item) :=
  match findById q id with
  | (none, _) => .error "No item with this ID exists"
  | (some _, idx) =>
    if idx == 0 then .ok q
    else
      let newOrder := q.map Item.itemID
      let i := idx.toNat
      let promoted :=
        if i == newOrder.length - 1 then
          newOrder.drop i ++ newOrder.take i
        else
          ((newOrder.drop i).take 1 ++ newOrder.take i) ++ newOrder.drop (i + 1)
      reorder q promoted

/-! ## C7 — the import-polling tick of `Processor.Start` / `Processor.Begin`

`tickInterval := time.Duration(cfg.Format.ImportDirTickDelay * int(time.Second))`
is 64-bit integer arithmetic (`int` and `time.Duration` are both 64-bit
signed): the product wraps modulo 2⁶⁴.  A non-positive `tickInterval` makes
startup fail via `log.Panic`; otherwise `time.NewTicker(tickInterval)`
starts the polling loop with that interval. -/

/-- Reduce an integer to the 64-bit signed value with the same bits
(wrap-around as in two-complement hardware). -/
def wrapInt64 (n : Int) : Int :=
  (n + 2 ^ 63) % 2 ^ 64 - 2 ^ 63

/-- The polling-delay validation of `Processor.Start` (part_003) and
`Processor.Begin` (processor.go): an error models the `log.Panic` startup
failure; success carries the ticker interval in nanoseconds. -/
def startPollingTicker (importDirTickDelay : Int) : Except String Int :=
  let tickInterval := wrapInt64 (importDirTickDelay * 1000000000)
  if tickInterval ≤ 0 then
    .error "Failed to start PollingWorker - TickInterval is non-positive"
  else
    .ok tickInterval

/-! ## C8 — `storeOrchestrator.SaveEpisode`

The primary keys and relational foreign keys the function saves and
restores.  UUIDs are modelled as `Nat`.  The three leaf saves
(`mediaStore.SaveSeries/SaveSeason/SaveEpisode`) are not under src/; the
theorem quantifies over arbitrary behaviours for them — each one may fail,
or succeed assigning its model a (possibly new) primary key, which is the
only mutation the source attributes to them (the doc comment of the source: the PKs and relational FKs of the models are set automatically during saving). -/

/-- The five key fields `SaveEpisode` snapshots before the transaction:
`episode.ID`, `season.ID`, `series.ID`, `episode.SeasonID`,
`season.SeriesID`. -/
structure MediaKeys where
  episodeID : Nat
  seasonID : Nat
  seriesID : Nat
  episodeSeasonID : Nat
  seasonSeriesID : Nat
  deriving DecidableEq, Repr

/-- `storeOrchestrator.SaveEpisode`: inside the transaction the series is
saved, the season FK is pointed at the series, the season is saved, the
episode FK is pointed at the season, and the episode is saved.  On any
failure the error of the transaction callback propagates and the five stored
keys are restored (`.error` carries the rolled-back keys); on success
`.ok` carries the final keys. -/
def saveEpisode (saveSeriesRow saveSeasonRow saveEpisodeRow : Nat → Except Unit Nat)
    (m : MediaKeys) : Except MediaKeys MediaKeys :=
  match saveSeriesRow m.seriesID with
  | .error _ => .error m
  | .ok newSeriesID =>
    let m1 := { m with seriesID := newSeriesID }
    let m2 := { m1 with seasonSeriesID := m1.seriesID }
    match saveSeasonRow m2.seasonID with
    | .error _ => .error m
    | .ok newSeasonID =>
      let m3 := { m2 with seasonID := newSeasonID }
      let m4 := { m3 with episodeSeasonID := m3.seasonID }
      match saveEpisodeRow m4.episodeID with
      | .error _ => .error m
      | .ok newEpisodeID => .ok { m4 with episodeID := newEpisodeID }

/-! ## C9 — `queueService.ExportItem`

The source returns early, before the `database...Save(exportItem)` call,
when (in order): the item is not at `Stage=Database`/`Status=Processing`;
the item declares itself `Episodic` but its episode or season number is −1;
or any of its ffmpeg instances is not `COMPLETE`.  (The genre lookup in
between is a read, not a save.)  The outcome type records whether the save
was reached. -/

/-- Whether `ExportItem` reaches the database save, or returns one of its
early errors without saving. -/
inductive ExportOutcome
  | earlyError
  | saved
  deriving DecidableEq, Repr

/-- The guard structure of `queueService.ExportItem`, with the database save
abstracted as the `saved` outcome. -/
def exportItem (item : Item) (insts : List InstanceStatus) : ExportOutcome :=
  if item.stage != .Database || item.status != .Processing then
    .earlyError
  else if item.titleInfo.episodic &&
      (item.titleInfo.episode == -1 || item.titleInfo.season == -1) then
    .earlyError
  else if insts.any (fun s => s != .COMPLETE) then
    .earlyError
  else
    .saved

/-! ## C10 — `media.Container` -/

/-- The tag of a media container: Go `media.ContainerType` with the two
declared constants `MOVIE` and `EPISODE`. -/
inductive ContainerType
  | MOVIE
  | EPISODE
  deriving DecidableEq, Repr

/-- `media.Movie`, restricted to identification. -/
structure MediaMovie where
  title : String
  deriving DecidableEq, Repr

/-- `media.Episode`, restricted to the field `Container.EpisodeNumber`
reads. -/
structure MediaEpisode where
  episodeNumber : Int
  deriving DecidableEq, Repr

/-- `media.Season`, restricted to the field `Container.SeasonNumber`
reads. -/
structure MediaSeason where
  seasonNumber : Int
  deriving DecidableEq, Repr

/-- `media.Container`: holds either a movie or an episode (with its season
and series), indicated by `type`.  The Go fields are pointers that may be
nil; `Option` models that. -/
structure Container where
  type : ContainerType
  movie : Option MediaMovie
  episode : Option MediaEpisode
  season : Option MediaSeason
  deriving DecidableEq, Repr

/-- `Container.EpisodeNumber`: −1 for a `MOVIE`, else the number of the contained
episode.  `none` models the nil-pointer panic the Go dereference
would raise when the episode is absent. -/
def containerEpisodeNumber (cont : Container) : Option Int :=
  if cont.type == .MOVIE then some (-1)
  else cont.episode.map MediaEpisode.episodeNumber

/-- `Container.SeasonNumber`: −1 for a `MOVIE`, else the number of the contained season.  `none` models the nil-pointer panic the Go dereference would raise
when the season is absent. -/
def containerSeasonNumber (cont : Container) : Option Int :=
  if cont.type == .MOVIE then some (-1)
  else cont.season.map MediaSeason.seasonNumber

/-! ## Theorems -/

/-- C1: for every filename the title task strips the extension and matches
the regex; two `[SsEe]\d+` groups yield an `Episodic` `TitleInfo` carrying
the parsed season and episode numbers (the spec S2 examples included),
otherwise a movie tagged with the four-digit year; on no match the task
fails with the unparsable-title trouble. -/
theorem formatTitle_spec :
    formatTitle "Breaking.Bad.S02E07.720p.mkv" =
        .ok ⟨"Breaking.Bad", true, 2, 7, -1⟩ ∧
    formatTitle "Inception.2010.1080p.mkv" =
        .ok ⟨"Inception", false, -1, -1, 2010⟩ ∧
    formatTitle "random_noise.mkv" = .error .UnparsableTitle ∧
    ∀ name : String,
      (∃ ti, formatTitle name = .ok ti ∧ ti.episodic = true ∧ ti.year = -1) ∨
      (∃ ti, formatTitle name = .ok ti ∧ ti.episodic = false ∧
        ti.season = -1 ∧ ti.episode = -1) ∨
      formatTitle name = .error .UnparsableTitle := by
  refine ⟨rfl, rfl, rfl, fun name => ?_⟩
  unfold formatTitle
  cases scanTitleAux [] (stripExtension name.toList) with
  | none => exact Or.inr (Or.inr rfl)
  | some hit =>
    cases hit with
    | episodic c s e => exact Or.inl ⟨_, rfl, rfl, rfl⟩
    | year b y => exact Or.inr (Or.inl ⟨_, rfl, rfl, rfl, rfl⟩)

/-- C2: evaluation of the `CancelItem` status switch at the inputs where the
source contradicts its own comment.  Because the Go `switch` does not fall
through, a `Pending` item is left `Pending` — no transition to `Cancelled`,
although the comment in that case body says an idle item is marked
cancelled immediately — and an already-`Cancelled` item is accepted with no
error and no change; a `NeedsResolving` item becomes `Cancelled`, a busy
`Processing` item becomes `Cancelling`, and a `Completed` item is
rejected. -/
theorem cancelItem_switch_bug :
    cancelItemStatus .Pending = .ok .Pending ∧
    cancelItemStatus .Cancelled = .ok .Cancelled ∧
    cancelItemStatus .NeedsResolving = .ok .Cancelled ∧
    cancelItemStatus .Processing = .ok .Cancelling ∧
    cancelItemStatus .Completed = .error "Item has already been completed" ∧
    cancelItem ⟨1, "a.mkv", .Import, .Pending, ⟨"a", false, -1, -1, -1⟩, none⟩
        [.WORKING] =
      .ok (⟨1, "a.mkv", .Import, .Pending, ⟨"a", false, -1, -1, -1⟩, none⟩,
        [.CANCELLED]) :=
  ⟨rfl, rfl, rfl, rfl, rfl, rfl⟩

/-- C3 (amended): `ResumeItem` rejects an item that is not `Paused`;
otherwise it unpauses the item, and resumes its ffmpeg instances only when
every one of them is `SUSPENDED` — when any instance is in another state it
returns with no instance resumed. -/
theorem resumeItem_spec (item : Item) (insts : List InstanceStatus) :
    (item.status = .Paused →
      (insts.all (fun s => s == .SUSPENDED) = true →
        resumeItem item insts =
          .ok ({ item with status := .Processing }, insts.map resumeInstance)) ∧
      (insts.all (fun s => s == .SUSPENDED) = false →
        resumeItem item insts = .ok ({ item with status := .Processing }, insts))) ∧
    (item.status ≠ .Paused →
      resumeItem item insts = .error "Item is not paused") := by
  constructor
  · intro hp
    constructor <;> intro ha <;> simp [resumeItem, hp, ha]
  · intro hp
    simp [resumeItem, hp]

/-- C3 witness: the theorem applied at a concrete paused item with a single
suspended instance, which is resumed. -/
theorem resumeItem_spec_witness :
    resumeItem ⟨2, "b.mkv", .Finish, .Paused, ⟨"b", false, -1, -1, -1⟩, none⟩
        [.SUSPENDED] =
      .ok (⟨2, "b.mkv", .Finish, .Processing, ⟨"b", false, -1, -1, -1⟩, none⟩,
        [.WORKING]) := by
  have h :=
    ((resumeItem_spec ⟨2, "b.mkv", .Finish, .Paused, ⟨"b", false, -1, -1, -1⟩, none⟩
      [.SUSPENDED]).1 rfl).1 rfl
  simpa [resumeInstance] using h

/-- C3 counterexample: a paused item with one suspended and one running
instance — `ResumeItem` succeeds but resumes neither instance (the
suspended one stays `SUSPENDED`), refuting the unconditional-resume
claim. -/
theorem resumeItem_not_unconditional :
    resumeItem ⟨1, "a.mkv", .Finish, .Paused, ⟨"a", false, -1, -1, -1⟩, none⟩
        [.SUSPENDED, .WORKING] =
      .ok (⟨1, "a.mkv", .Finish, .Processing, ⟨"a", false, -1, -1, -1⟩, none⟩,
        [.SUSPENDED, .WORKING]) ∧
    resumeInstance .SUSPENDED ≠ .SUSPENDED :=
  ⟨rfl, by decide⟩

/-- C5 (amended): on an ingest tick every `Import`-stage item whose statted
modification time is strictly more than 120 seconds old is advanced to
`Title` with status `Pending`, and every `Import`-stage item aged 120
seconds or less is left unchanged. -/
theorem modtimeTick_gate (now t : Int) (q : List Item) (k : Nat) (hk : k < q.length)
    (hstage : (q.get ⟨k, hk⟩).stage = .Import)
    (hmt : (q.get ⟨k, hk⟩).mtime = some t) :
    (120 < now - t →
      (modtimeTick now q).get ⟨k, by simpa [modtimeTick] using hk⟩ =
        { q.get ⟨k, hk⟩ with stage := .Title, status := .Pending }) ∧
    (now - t ≤ 120 →
      (modtimeTick now q).get ⟨k, by simpa [modtimeTick] using hk⟩ =
        q.get ⟨k, hk⟩) := by
  simp only [List.get_eq_getElem] at hstage hmt ⊢
  constructor <;> intro h
  · simp [modtimeTick, List.getElem_map, modtimeStep, hstage, hmt,
      advanceFromImport, h]
  · have hne : ¬ (120 < now - t) := by omega
    simp [modtimeTick, List.getElem_map, modtimeStep, hstage, hmt,
      advanceFromImport, hne]

/-- C5 witness: spec scenario S1 at t = 125 s — an import item whose file
was last modified 125 seconds ago advances to the Title stage. -/
theorem modtimeTick_gate_witness :
    (modtimeTick 125
        [⟨1, "show.S01E02.mkv", .Import, .Pending, ⟨"", false, -1, -1, -1⟩, some 0⟩]).get
      ⟨0, by simp [modtimeTick]⟩ =
      ⟨1, "show.S01E02.mkv", .Title, .Pending, ⟨"", false, -1, -1, -1⟩, some 0⟩ := by
  have h := (modtimeTick_gate 125 0
      [⟨1, "show.S01E02.mkv", .Import, .Pending, ⟨"", false, -1, -1, -1⟩, some 0⟩]
      0 (by decide) rfl rfl).1 (by decide)
  simpa using h

/-- C5 counterexample: at an age of exactly 120 seconds (so
Clock.Now − ModTime ≥ 120 s) the item is NOT advanced — the source gate is
the strict `time.Since(modtime) > time.Minute*2`. -/
theorem modtimeTick_at_exactly_120 :
    ((120 : Int) - 0 ≥ 120) ∧
    (modtimeTick 120
        [⟨1, "show.S01E02.mkv", .Import, .Pending, ⟨"", false, -1, -1, -1⟩, some 0⟩]).map
      Item.stage = [.Import] :=
  ⟨by decide, rfl⟩

/-- Any integer within the signed 64-bit range is its own 64-bit wrap. -/
theorem wrapInt64_eq_self (n : Int) (h1 : -9223372036854775808 ≤ n)
    (h2 : n < 9223372036854775808) : wrapInt64 n = n := by
  have e1 : (2 : Int) ^ 63 = 9223372036854775808 := by norm_num
  have e2 : (2 : Int) ^ 64 = 18446744073709551616 := by norm_num
  unfold wrapInt64
  rw [e1, e2, Int.emod_eq_of_lt (by omega) (by omega)]
  omega

/-- C7 (amended): with the 64-bit tick arithmetic of the source, an
`import_polling_delay` that is zero or negative (and at least
−9 223 372 036, so that the product by 10⁹ does not wrap) makes startup
fail, and a positive delay of at most 9 223 372 036 starts the polling
ticker with exactly that many seconds (delay·10⁹ ns); outside this range
the multiplication by 10⁹ overflows int64. -/
theorem startPollingTicker_spec (d : Int) :
    (-9223372036 ≤ d ∧ d ≤ 0 →
      startPollingTicker d =
        .error "Failed to start PollingWorker - TickInterval is non-positive") ∧
    (0 < d ∧ d ≤ 9223372036 →
      startPollingTicker d = .ok (d * 1000000000)) := by
  constructor
  · rintro ⟨h1, h2⟩
    have hw : wrapInt64 (d * 1000000000) = d * 1000000000 :=
      wrapInt64_eq_self _ (by omega) (by omega)
    unfold startPollingTicker
    rw [hw, if_pos (by omega)]
  · rintro ⟨h1, h2⟩
    have hw : wrapInt64 (d * 1000000000) = d * 1000000000 :=
      wrapInt64_eq_self _ (by omega) (by omega)
    unfold startPollingTicker
    rw [hw, if_neg (by omega)]

/-- C7 witness: the theorem applied at delay 5 (the ticker starts with
5·10⁹ ns) and at delay 0 (startup fails). -/
theorem startPollingTicker_spec_witness :
    startPollingTicker 5 = .ok 5000000000 ∧
    startPollingTicker 0 =
      .error "Failed to start PollingWorker - TickInterval is non-positive" :=
  ⟨by simpa using (startPollingTicker_spec 5).2 ⟨by decide, by decide⟩,
   (startPollingTicker_spec 0).1 ⟨by decide, by decide⟩⟩

/-- C7 counterexample: the delay 10¹⁰ is positive, yet 10¹⁰·10⁹ wraps to a
negative 64-bit duration, so startup panics instead of entering the polling
loop — the claim as stated fails for this positive value. -/
theorem startPollingTicker_overflow :
    ((0 : Int) < 10000000000) ∧
    startPollingTicker 10000000000 =
      .error "Failed to start PollingWorker - TickInterval is non-positive" :=
  ⟨by decide, rfl⟩

/-- C8: `SaveEpisode` is atomic on the model keys: when it returns an error
the five stored keys (episode/season/series PKs, episode→season FK,
season→series FK) are exactly their pre-call values, and when it succeeds
the season references the series and the episode references the season. -/
theorem saveEpisode_atomic (f g h : Nat → Except Unit Nat) (m : MediaKeys) :
    (∀ r, saveEpisode f g h m = .error r → r = m) ∧
    (∀ r, saveEpisode f g h m = .ok r →
      r.seasonSeriesID = r.seriesID ∧ r.episodeSeasonID = r.seasonID) := by
  constructor <;> intro r hr <;>
      simp only [saveEpisode] at hr <;>
      (repeat' split at hr) <;>
      (try cases hr) <;> simp_all

/-- C8 witness: the atomicity theorem applied with a failing season save
(the keys are restored) and with all three saves succeeding (the FKs line
up with the new PKs). -/
theorem saveEpisode_atomic_witness :
    ((⟨1, 2, 3, 4, 5⟩ : MediaKeys) = ⟨1, 2, 3, 4, 5⟩) ∧
    ((10 : Nat) = 10 ∧ (20 : Nat) = 20) := by
  constructor
  · exact (saveEpisode_atomic (fun _ => .ok 7) (fun _ => .error ()) (fun _ => .ok 9)
      ⟨1, 2, 3, 4, 5⟩).1 ⟨1, 2, 3, 4, 5⟩ rfl
  · exact (saveEpisode_atomic (fun _ => .ok 10) (fun _ => .ok 20) (fun _ => .ok 30)
      ⟨1, 2, 3, 4, 5⟩).2 ⟨30, 20, 10, 20, 10⟩ rfl

/-- C9: `ExportItem` reaches the database save exactly when the item is at
`Stage=Database` with `Status=Processing`, every ffmpeg instance is
`COMPLETE`, and an `Episodic` title carries season and episode numbers
other than −1; in every other case it returns an early error without
saving. -/
theorem exportItem_saved_iff (item : Item) (insts : List InstanceStatus) :
    exportItem item insts = .saved ↔
      (item.stage = .Database ∧ item.status = .Processing ∧
        (∀ s ∈ insts, s = .COMPLETE) ∧
        (item.titleInfo.episodic = true →
          item.titleInfo.episode ≠ -1 ∧ item.titleInfo.season ≠ -1)) := by
  unfold exportItem
  split_ifs with h1 h2 h3
  · simp only [bne_iff_ne, Bool.or_eq_true, ne_eq] at h1
    constructor
    · intro h; exact absurd h (by decide)
    · rintro ⟨ha, hb, -, -⟩
      rcases h1 with h1 | h1 <;> simp [ha, hb] at h1
  · simp only [Bool.or_eq_true, bne_iff_ne, ne_eq, not_or, not_not] at h1
    simp only [Bool.and_eq_true, Bool.or_eq_true, beq_iff_eq] at h2
    constructor
    · intro h; exact absurd h (by decide)
    · rintro ⟨-, -, -, hep⟩
      rcases hep h2.1 with ⟨he, hs⟩
      rcases h2.2 with h | h <;> simp [h] at he hs
  · simp only [List.any_eq_true, bne_iff_ne, ne_eq] at h3
    constructor
    · intro h; exact absurd h (by decide)
    · rintro ⟨-, -, hall, -⟩
      rcases h3 with ⟨s, hs, hne⟩
      exact hne (hall s hs)
  · simp only [Bool.or_eq_true, bne_iff_ne, ne_eq, not_or, not_not] at h1
    simp only [Bool.and_eq_true, Bool.or_eq_true, beq_iff_eq, not_and, not_or] at h2
    simp only [List.any_eq_true, bne_iff_ne, ne_eq, not_exists, not_and, not_not] at h3
    refine ⟨fun _ => ⟨h1.1, h1.2, fun s hs => h3 s hs, fun hep => ?_⟩, fun _ => rfl⟩
    rcases h2 hep with ⟨he, hs⟩
    exact ⟨he, hs⟩

/-- C9 witness: the iff applied at a concrete exportable episodic item. -/
theorem exportItem_saved_iff_witness :
    exportItem ⟨3, "c.mkv", .Database, .Processing, ⟨"c", true, 2, 7, -1⟩, none⟩
        [.COMPLETE, .COMPLETE] = .saved := by
  exact (exportItem_saved_iff _ _).mpr ⟨rfl, rfl, by decide, by decide⟩

/-- C10: a `MOVIE` container reports −1 for both the episode and the season
number; an `EPISODE` container reports the numbers of its contained episode
and season. -/
theorem container_numbers (cont : Container) :
    (cont.type = .MOVIE →
      containerEpisodeNumber cont = some (-1) ∧
      containerSeasonNumber cont = some (-1)) ∧
    (cont.type = .EPISODE →
      (∀ e, cont.episode = some e →
        containerEpisodeNumber cont = some e.episodeNumber) ∧
      (∀ s, cont.season = some s →
        containerSeasonNumber cont = some s.seasonNumber)) := by
  refine ⟨fun h => ?_, fun h => ⟨fun e he => ?_, fun s hs => ?_⟩⟩
  · simp [containerEpisodeNumber, containerSeasonNumber, h]
  · simp [containerEpisodeNumber, h, he]
  · simp [containerSeasonNumber, h, hs]

/-- C10 witness: the theorem applied at a concrete movie container and at a
concrete episode container. -/
theorem container_numbers_witness :
    containerEpisodeNumber ⟨.MOVIE, some ⟨"Inception"⟩, none, none⟩ = some (-1) ∧
    containerEpisodeNumber ⟨.EPISODE, none, some ⟨7⟩, some ⟨2⟩⟩ = some 7 ∧
    containerSeasonNumber ⟨.EPISODE, none, some ⟨7⟩, some ⟨2⟩⟩ = some 2 := by
  refine ⟨((container_numbers ⟨.MOVIE, some ⟨"Inception"⟩, none, none⟩).1 rfl).1, ?_, ?_⟩
  · exact ((container_numbers ⟨.EPISODE, none, some ⟨7⟩, some ⟨2⟩⟩).2 rfl).1 ⟨7⟩ rfl
  · exact ((container_numbers ⟨.EPISODE, none, some ⟨7⟩, some ⟨2⟩⟩).2 rfl).2 ⟨2⟩ rfl

/-- `findByIdAux` over a queue with pairwise-distinct IDs locates the match
at index `k` and reports it relative to the accumulator. -/
theorem findByIdAux_eq_of_nodup (id : Int) (q : List Item)
    (hnd : (q.map Item.itemID).Nodup) (k : Nat) (hk : k < q.length)
    (hid : (q.get ⟨k, hk⟩).itemID = id) :
    ∀ acc : Int, findByIdAux id q acc = (some (q.get ⟨k, hk⟩), acc + (k : Int)) := by
  induction q generalizing k with
  | nil => simp at hk
  | cons it rest ih =>
    intro acc
    simp only [List.map_cons, List.nodup_cons] at hnd
    cases k with
    | zero =>
      simp only [List.get] at hid ⊢
      simp [findByIdAux, hid]
    | succ j =>
      have hj : j < rest.length := by simpa using hk
      have hid2 : (rest.get ⟨j, hj⟩).itemID = id := by simpa using hid
      have hne : it.itemID ≠ id := by
        intro he
        exact hnd.1 (by
          rw [he, ← hid2]
          exact List.mem_map_of_mem _ (List.get_mem rest j hj))
      have hbe : (it.itemID == id) = false := by simp [hne]
      have ihx := ih hnd.2 j hj hid2 (acc + 1)
      simp only [findByIdAux, hbe, Bool.false_eq_true, if_false, ihx, Prod.mk.injEq]
      exact ⟨by simp, by omega⟩

/-- `findByIdAux` misses when no item carries the ID. -/
theorem findByIdAux_miss (id : Int) (q : List Item)
    (h : ∀ it ∈ q, it.itemID ≠ id) :
    ∀ acc : Int, findByIdAux id q acc = (none, -1) := by
  induction q with
  | nil => intro acc; rfl
  | cons it rest ih =>
    intro acc
    have hbe : (it.itemID == id) = false := by simp [h it (by simp)]
    simp only [findByIdAux, hbe, Bool.false_eq_true, if_false]
    exact ih (fun x hx => h x (by simp [hx])) (acc + 1)

/-- With pairwise-distinct IDs, `find?` by the ID of a member returns
exactly that member. -/
theorem find_eq_of_nodup (q : List Item) (hnd : (q.map Item.itemID).Nodup)
    (x : Item) (hx : x ∈ q) :
    q.find? (fun it => it.itemID == x.itemID) = some x := by
  induction q with
  | nil => simp at hx
  | cons a rest ih =>
    simp only [List.map_cons, List.nodup_cons] at hnd
    rcases List.mem_cons.mp hx with rfl | hx2
    · exact List.find?_cons_of_pos _ (by simp)
    · have hne : (a.itemID == x.itemID) = false := by
        simp only [beq_eq_false_iff_ne, ne_eq]
        intro he
        exact hnd.1 (he ▸ List.mem_map_of_mem _ hx2)
      rw [List.find?_cons_of_neg _ (by simp [hne])]
      exact ih hnd.2 hx2

/-- Resolving a list of member IDs through `find?` reproduces the members
(distinct IDs). -/
theorem filterMap_find_eq (q : List Item) (hnd : (q.map Item.itemID).Nodup)
    (sub : List Item) (hsub : ∀ x ∈ sub, x ∈ q) :
    (sub.map Item.itemID).filterMap
      (fun i => q.find? (fun it => it.itemID == i)) = sub := by
  induction sub with
  | nil => rfl
  | cons x rest ih =>
    have hfind := find_eq_of_nodup q hnd x (hsub x (by simp))
    simp only [List.map_cons, List.filterMap_cons, hfind]
    rw [ih (fun y hy => hsub y (by simp [hy]))]

/-- Moving the element at index `k` to the front is a permutation. -/
theorem cons_eraseIdx_perm {α : Type} (l : List α) (k : Nat) (hk : k < l.length) :
    (l.get ⟨k, hk⟩ :: l.eraseIdx k).Perm l := by
  have hsplit : l = l.take k ++ l.get ⟨k, hk⟩ :: l.drop (k + 1) := by
    conv_lhs => rw [← List.take_append_drop k l]
    rw [List.drop_eq_getElem_cons hk]
    simp
  rw [List.eraseIdx_eq_take_drop_succ]
  conv_rhs => rw [hsplit]
  exact List.perm_middle.symm

/-- C4: with pairwise-distinct item IDs, `PromoteItem` of a present ID
succeeds and reorders the queue so that this item is at index 0 while the
others keep their relative order (the result is the item consed onto the
queue with its old position erased, and it is a permutation of the original
queue, so nothing is created or destroyed; the item already at index 0
leaves the queue unchanged); a missing ID fails with an error. -/
theorem promoteItem_spec (q : List Item) (id : Int)
    (hnd : (q.map Item.itemID).Nodup) :
    (∀ k (hk : k < q.length), (q.get ⟨k, hk⟩).itemID = id →
      promoteItem q id = .ok (q.get ⟨k, hk⟩ :: q.eraseIdx k) ∧
      (q.get ⟨k, hk⟩ :: q.eraseIdx k).Perm q) ∧
    ((∀ it ∈ q, it.itemID ≠ id) →
      promoteItem q id = .error "No item with this ID exists") := by
  constructor
  · intro k hk hid
    refine ⟨?_, cons_eraseIdx_perm q k hk⟩
    have hfind : findById q id = (some (q.get ⟨k, hk⟩), (k : Int)) := by
      simpa using findByIdAux_eq_of_nodup id q hnd k hk hid 0
    unfold promoteItem
    rw [hfind]
    by_cases hk0 : k = 0
    · subst hk0
      simp only [Nat.cast_zero, beq_self_eq_true, if_true]
      cases q with
      | nil => simp at hk
      | cons a t => simp [List.eraseIdx]
    · have hki : (((k : Nat) : Int) == 0) = false := by
        simp [hk0]
      simp only [hki, Bool.false_eq_true, if_false, Int.toNat_natCast]
      have hlen : (q.map Item.itemID).length = q.length := by simp
      have hkl : k < (q.map Item.itemID).length := by omega
      have hdrop : (q.map Item.itemID).drop k =
          (q.map Item.itemID).get ⟨k, hkl⟩ :: (q.map Item.itemID).drop (k + 1) := by
        rw [List.get_eq_getElem]
        exact List.drop_eq_getElem_cons hkl
      have hpromoted :
          (if (k == (q.map Item.itemID).length - 1) = true then
            (q.map Item.itemID).drop k ++ (q.map Item.itemID).take k
          else
            (((q.map Item.itemID).drop k).take 1 ++ (q.map Item.itemID).take k) ++
              (q.map Item.itemID).drop (k + 1)) =
          (q.map Item.itemID).get ⟨k, hkl⟩ ::
            ((q.map Item.itemID).take k ++ (q.map Item.itemID).drop (k + 1)) := by
        by_cases hlast : k = (q.map Item.itemID).length - 1
        · have hnil : (q.map Item.itemID).drop (k + 1) = [] :=
            List.drop_eq_nil_of_le (by omega)
          rw [if_pos (by simpa using hlast), hdrop, hnil]
          simp
        · rw [if_neg (by simpa using hlast), hdrop]
          simp
      rw [hpromoted]
      have hperm : ((q.map Item.itemID).get ⟨k, hkl⟩ ::
          ((q.map Item.itemID).take k ++ (q.map Item.itemID).drop (k + 1))).Perm
            (q.map Item.itemID) := by
        have hp := cons_eraseIdx_perm (q.map Item.itemID) k hkl
        rwa [List.eraseIdx_eq_take_drop_succ] at hp
      unfold reorder
      rw [if_pos (List.isPerm_iff.mpr hperm.symm)]
      have hlisteq : (q.map Item.itemID).get ⟨k, hkl⟩ ::
          ((q.map Item.itemID).take k ++ (q.map Item.itemID).drop (k + 1)) =
          (q.get ⟨k, hk⟩ :: q.eraseIdx k).map Item.itemID := by
        simp only [List.map_cons, List.eraseIdx_eq_take_drop_succ, List.map_append,
          List.map_take, List.map_drop, List.get_eq_getElem, List.getElem_map]
      rw [hlisteq]
      rw [filterMap_find_eq q hnd _ (by
        intro x hx
        rcases List.mem_cons.mp hx with rfl | hx2
        · exact List.get_mem q k hk
        · exact (List.eraseIdx_sublist q k).mem hx2)]
  · intro hmiss
    have hfind : findById q id = (none, -1) := findByIdAux_miss id q hmiss 0
    unfold promoteItem
    rw [hfind]

/-- C4 witness: the theorem applied to a concrete three-item queue,
promoting the middle item. -/
theorem promoteItem_spec_witness :
    promoteItem
      [⟨1, "a.mkv", .Import, .Pending, ⟨"", false, -1, -1, -1⟩, none⟩,
       ⟨2, "b.mkv", .Import, .Pending, ⟨"", false, -1, -1, -1⟩, none⟩,
       ⟨3, "c.mkv", .Import, .Pending, ⟨"", false, -1, -1, -1⟩, none⟩] 2 =
      .ok
        [⟨2, "b.mkv", .Import, .Pending, ⟨"", false, -1, -1, -1⟩, none⟩,
         ⟨1, "a.mkv", .Import, .Pending, ⟨"", false, -1, -1, -1⟩, none⟩,
         ⟨3, "c.mkv", .Import, .Pending, ⟨"", false, -1, -1, -1⟩, none⟩] := by
  have h := (promoteItem_spec
      [⟨1, "a.mkv", .Import, .Pending, ⟨"", false, -1, -1, -1⟩, none⟩,
       ⟨2, "b.mkv", .Import, .Pending, ⟨"", false, -1, -1, -1⟩, none⟩,
       ⟨3, "c.mkv", .Import, .Pending, ⟨"", false, -1, -1, -1⟩, none⟩] 2
      (by decide)).1 1 (by decide) rfl
  simpa using h.1

/-- The modtime step never changes the path of an item. -/
theorem modtimeStep_path (now : Int) (it : Item) :
    (modtimeStep now it).path = it.path := by
  unfold modtimeStep advanceFromImport
  split
  · rfl
  · split
    · rfl
    · split <;> rfl

/-- C6 (amended): after an ingest-tick synchronisation no item remains in
the queue whose path is absent from the discovered set; the removed items
are exactly the pushed items with an undiscovered path, each passed through
`CancelItem` before removal — which cancels the ffmpeg instances and sets a
`NeedsResolving` item to `Cancelled` and a busy `Processing` item to
`Cancelling`, while a `Pending` item keeps its status and
`Cancelling`/`Completed` items are removed without the instance
cancellation being reached. -/
theorem synchroniseQueue_spec (now : Int) (discovered q : List Item) :
    (∀ x ∈ (synchroniseQueue now discovered q).1,
      x.path ∈ discovered.map Item.path) ∧
    ((synchroniseQueue now discovered q).2 =
      ((discovered.foldl pushItem q).filter
        (fun it => !(discovered.map Item.path).contains it.path)).map cancelRemoved) ∧
    (∀ it : Item,
      (it.status = .NeedsResolving →
        cancelRemoved it = ({ it with status := .Cancelled }, true)) ∧
      (it.status = .Processing →
        cancelRemoved it = ({ it with status := .Cancelling }, true)) ∧
      (it.status = .Pending → cancelRemoved it = (it, true)) ∧
      ((it.status = .Cancelling ∨ it.status = .Completed) →
        cancelRemoved it = (it, false))) := by
  refine ⟨?_, rfl, ?_⟩
  · intro x hx
    simp only [synchroniseQueue, modtimeTick, List.mem_map] at hx
    rcases hx with ⟨y, hy, rfl⟩
    rw [modtimeStep_path]
    have hc := (List.mem_filter.mp hy).2
    simpa [List.elem_iff] using hc
  · intro it
    refine ⟨fun h => ?_, fun h => ?_, fun h => ?_, fun h => ?_⟩
    · simp [cancelRemoved, cancelItemStatus, h]
    · simp [cancelRemoved, cancelItemStatus, h]
    · obtain ⟨a, b, c, st, e, f⟩ := it
      cases h
      simp [cancelRemoved, cancelItemStatus]
    · rcases h with h | h <;> simp [cancelRemoved, cancelItemStatus, h]

/-- C6 witness: the theorem applied at a concrete tick — the path of the
one surviving item is among the discovered paths. -/
theorem synchroniseQueue_spec_witness :
    (⟨1, "keep.mkv", .Omdb, .Processing, ⟨"", false, -1, -1, -1⟩, none⟩ : Item).path ∈
      ([⟨2, "keep.mkv", .Title, .Pending, ⟨"", false, -1, -1, -1⟩, none⟩] :
        List Item).map Item.path := by
  exact (synchroniseQueue_spec 0
      [⟨2, "keep.mkv", .Title, .Pending, ⟨"", false, -1, -1, -1⟩, none⟩]
      [⟨1, "keep.mkv", .Omdb, .Processing, ⟨"", false, -1, -1, -1⟩, none⟩]).1
    _ (by decide)

/-- C6 counterexample: the source file of a `Pending` item disappears; the
next tick removes the item, but the removal trace shows its status is still
`Pending` — it was not transitioned to `Cancelled` before being filtered
out. -/
theorem syncRemoved_pending_not_cancelled :
    (synchroniseQueue 0 []
        [⟨1, "gone.mkv", .Omdb, .Pending, ⟨"", false, -1, -1, -1⟩, none⟩]).2 =
      [(⟨1, "gone.mkv", .Omdb, .Pending, ⟨"", false, -1, -1, -1⟩, none⟩, true)] ∧
    ItemStatus.Pending ≠ ItemStatus.Cancelled :=
  ⟨rfl, by decide⟩

end Thea
